import Mathlib

/-!
Verification of the Paw conversation turn-assembly and tool-call correlation
engine.  The definitions below are a shallow embedding of the TypeScript
sources:

* `src/core/static/js/modules/chat.ts` — the `ChatHistory` manager: live turn
  assembly (`addUserMessage`, `onStreamStart`, `onStreamEnd`, `addTool`,
  `endAssistantTurn`, `clear`) and batch session reconstruction
  (`loadSessionChunks`).
* `src/core/frontend/src/modules/render.ts` — the pure display formatter
  `getToolDisplay`.
* the streaming buffer logic `startStream` / `appendStream` / `endStream` of
  the main entry module.

JavaScript strings are modelled as Lean `String`, JS numbers occurring in tool
arguments as `Int`, absent (`undefined`/`null`) values as `Option`, JS
exceptions as `Except String`, and the nondeterministic `Date.now()` message-id
source as a threaded counter (only uniqueness of those ids matters; they are
ignored by all structural comparisons, mirroring the spec's notion of
structural equality).  DOM side effects are modelled only insofar as they feed
back into the data model: the existence of the streaming content element and
of the per-message tool container, and the list of `updateToolElement` calls
(`(tool id, display)` resolution pairs) issued after a session reload.
-/

namespace Paw

/-! ## JS string helpers

All string operations are implemented by structural recursion over the
character list (the standard library versions use well-founded recursion,
which the kernel cannot evaluate; these definitions keep every concrete
computation checkable by `decide`). -/

def isPrefixList : List Char → List Char → Bool
  | [], _ => true
  | _ :: _, [] => false
  | a :: as, b :: bs => a = b && isPrefixList as bs

/-- Split a character list on a non-empty separator occurrence (fuelled;
`fuel = length + 1` always suffices since every step consumes a
character). -/
def splitOnFuel : Nat → List Char → List Char → List Char → List (List Char)
  | 0, _, cs, acc => [acc.reverse ++ cs]
  | fuel + 1, sep, cs, acc =>
      match cs with
      | [] => [acc.reverse]
      | c :: rest =>
          if isPrefixList sep cs then
            acc.reverse :: splitOnFuel fuel sep (cs.drop sep.length) []
          else
            splitOnFuel fuel sep rest (c :: acc)

/-- JS `s.split(sep)` for a non-empty literal separator. -/
def jsSplit (s sep : String) : List String :=
  (splitOnFuel (s.data.length + 1) sep.data s.data []).map String.mk

/-- JS `array.join(sep)`. -/
def joinSep (sep : String) : List String → String
  | [] => ""
  | [x] => x
  | x :: xs => x ++ sep ++ joinSep sep xs

/-- JS `s.slice(0, n)`. -/
def strTake (s : String) (n : Nat) : String := String.mk (s.data.take n)

/-- JS `s.slice(n)`. -/
def strDrop (s : String) (n : Nat) : String := String.mk (s.data.drop n)

/-- JS `s.startsWith(pre)`. -/
def jsStartsWith (s pre : String) : Bool := isPrefixList pre.data s.data

/-- JS whitespace as stripped by `String.prototype.trim`. -/
def isJsWs (c : Char) : Bool :=
  c = ' ' ∨ c = '\t' ∨ c = '\n' ∨ c = '\r' ∨ c = Char.ofNat 11 ∨
    c = Char.ofNat 12 ∨ c = Char.ofNat 160 ∨ c = Char.ofNat 65279

/-- JS `s.trim()`. -/
def jsTrim (s : String) : String :=
  String.mk (((s.data.dropWhile isJsWs).reverse.dropWhile isJsWs).reverse)

/-- ASCII lower-casing (JS `toLowerCase` restricted to the ASCII range — the
only probe made on a lower-cased string is for the ASCII text
`"no matches"`). -/
def charLower (c : Char) : Char :=
  if 'A' ≤ c ∧ c ≤ 'Z' then Char.ofNat (c.toNat + 32) else c

/-- JS `s.toLowerCase()` (ASCII). -/
def jsToLower (s : String) : String := String.mk (s.data.map charLower)

/-- JS `array.pop()` on the result of a split (never empty), with `|| ''`. -/
def lastD (l : List String) : String := l.getLastD ""

/-- JS `path.split('/').pop()?.split('\\').pop() || ''` — basename stripping
both separator conventions (render.ts, used by the file-targeting tools). -/
def basename (path : String) : String :=
  lastD (jsSplit (lastD (jsSplit path "/")) "\\")

/-- JS `s.includes(sub)` for non-empty `sub`. -/
def jsIncludes (s sub : String) : Bool := (jsSplit s sub).length ≥ 2

def isDigitC (c : Char) : Bool := '0' ≤ c ∧ c ≤ '9'

def digitsToNat : List Char → Option Nat
  | [] => none
  | cs =>
      cs.foldl
        (fun acc c =>
          match acc with
          | none => none
          | some n => if isDigitC c then some (n * 10 + (c.toNat - 48)) else none)
        (some 0)

/-- Integer value of a decimal string, `none` when not a plain integer. -/
def jsToInt : String → Option Int
  | s =>
      match s.data with
      | '-' :: rest => (digitsToNat rest).map (fun n => -(n : Int))
      | cs => (digitsToNat cs).map (fun n => (n : Int))

/-! ## chat.ts data model -/

inductive Role where
  | user
  | assistant
deriving DecidableEq, Repr

/-- `Message` of chat.ts. -/
structure Message where
  id : String
  role : Role
  text : String
deriving DecidableEq, Repr

/-- `TurnPart` of chat.ts: `{type:'text', text}` or `{type:'tool', id, name}`.
The live path always supplies a tool name; the reload path stores
`func.name`, which may be absent, hence `Option String`. -/
inductive TurnPart where
  | text (s : String)
  | tool (id : String) (name : Option String)
deriving DecidableEq, Repr

/-- `Turn` of chat.ts. -/
structure Turn where
  role : Role
  msgId : Option String
  text : String
  parts : List TurnPart
deriving DecidableEq, Repr

/-- The mutable state of the `ChatHistory` singleton (chat.ts).  `nextId`
models the `Date.now()`-based message-id source as a counter. -/
structure ChatState where
  messages : List Message
  turns : List Turn
  currentTurn : Option Turn
  isInAssistantTurn : Bool
  nextId : Nat
deriving DecidableEq, Repr

def initState : ChatState := ⟨[], [], none, false, 0⟩

/-- Generate a fresh message id (models `msg-${Date.now()}`). -/
def freshMsg (s : ChatState) : String × ChatState :=
  ("msg-" ++ toString s.nextId, { s with nextId := s.nextId + 1 })

/-- JS truthiness of a nullable string (`null`, `undefined` and `''` are
falsy). -/
def strTruthy (o : Option String) : Bool := o.getD "" ≠ ""

/-- `ChatHistory.addUserMessage` (chat.ts 89–116): push the user message and
user turn, then mark the assistant turn as open with a fresh empty
placeholder.  Returns the generated message id. -/
def addUserMessage (text : String) (s : ChatState) : String × ChatState :=
  let (msgId, s1) := freshMsg s
  (msgId,
    { s1 with
        messages := s1.messages ++ [⟨msgId, Role.user, text⟩]
        turns := s1.turns ++ [⟨Role.user, some msgId, text, []⟩]
        isInAssistantTurn := true
        currentTurn := some ⟨Role.assistant, none, "", []⟩ })

/-- `ChatHistory.onStreamStart` (chat.ts 119–125): record the first stream
message id on the open turn (`!this.currentTurn.msgId` is JS truthiness). -/
def onStreamStart (msgId : String) (s : ChatState) : ChatState :=
  match s.currentTurn with
  | some t =>
      if s.isInAssistantTurn then
        if strTruthy t.msgId then s
        else { s with currentTurn := some { t with msgId := some msgId } }
      else s
  | none => s

/-- `ChatHistory.onStreamEnd` (chat.ts 128–135): push one coalesced text part
if the text is non-empty; set the turn preview text if still empty. -/
def onStreamEnd (text : String) (s : ChatState) : ChatState :=
  match s.currentTurn with
  | some t =>
      if s.isInAssistantTurn ∧ text ≠ "" then
        { s with
            currentTurn := some
              { t with
                  parts := t.parts ++ [TurnPart.text text]
                  text := if t.text = "" then text else t.text } }
      else s
  | none => s

/-- `ChatHistory.addTool` (chat.ts 138–142): unconditionally append a tool
part to the open turn (no duplicate-id check in the source). -/
def addTool (toolId toolName : String) (s : ChatState) : ChatState :=
  match s.currentTurn with
  | some t =>
      if s.isInAssistantTurn then
        { s with
            currentTurn := some
              { t with parts := t.parts ++ [TurnPart.tool toolId (some toolName)] } }
      else s
  | none => s

/-- `ChatHistory.endAssistantTurn` (chat.ts 145–159): finalize the open turn
iff it has a part or non-empty text; in either case clear the open-turn
slot. -/
def endAssistantTurn (s : ChatState) : ChatState :=
  match s.currentTurn with
  | some t =>
      if s.isInAssistantTurn then
        if t.parts.length > 0 ∨ t.text ≠ "" then
          let idAndS : String × ChatState :=
            match t.msgId with
            | some m => if m = "" then freshMsg s else (m, s)
            | none => freshMsg s
          { idAndS.2 with
              turns := s.turns ++ [t]
              messages := s.messages ++ [⟨idAndS.1, Role.assistant, t.text⟩]
              currentTurn := none
              isInAssistantTurn := false }
        else { s with currentTurn := none, isInAssistantTurn := false }
      else s
  | none => s

/-- `ChatHistory.clear` (chat.ts 257–263). -/
def clearState (s : ChatState) : ChatState :=
  { s with messages := [], turns := [], currentTurn := none, isInAssistantTurn := false }

/-! ## Live event sequences -/

/-- One event of the live assembly path. -/
inductive LiveEvent where
  | user (text : String)
  | streamStart (msgId : String)
  | streamEnd (text : String)
  | toolStart (id : String) (name : String)
  | turnEnd
deriving DecidableEq, Repr

def stepLive (s : ChatState) : LiveEvent → ChatState
  | LiveEvent.user t => (addUserMessage t s).2
  | LiveEvent.streamStart m => onStreamStart m s
  | LiveEvent.streamEnd t => onStreamEnd t s
  | LiveEvent.toolStart i n => addTool i n s
  | LiveEvent.turnEnd => endAssistantTurn s

/-- Run a live event sequence through the `ChatHistory` operations. -/
def runLive : List LiveEvent → ChatState → ChatState
  | [], s => s
  | e :: es, s => runLive es (stepLive s e)

/-! ## JSON values and `JSON.parse`

The formatter extracts embedded JSON documents from tool results with
`content.match(/\x7b[\s\S]*\x7d/)` followed by `JSON.parse`.  We model JSON
values with numbers carried as their source lexeme (all displays interpolate
them back into strings) and `JSON.parse` as a strict recursive-descent parser
returning `Option Json`. -/

def lbrace : Char := Char.ofNat 123
def rbrace : Char := Char.ofNat 125
def lbrack : Char := Char.ofNat 91
def rbrack : Char := Char.ofNat 93
def quoteC : Char := Char.ofNat 34
def backslashC : Char := Char.ofNat 92

inductive Json where
  | null
  | bool (b : Bool)
  | num (raw : String)
  | str (s : String)
  | arr (elems : List Json)
  | obj (fields : List (String × Json))

/-- Skip JSON whitespace (space, tab, newline, carriage return). -/
def skipWs : List Char → List Char
  | [] => []
  | c :: cs =>
      if c = ' ' ∨ c = '\t' ∨ c = '\n' ∨ c = '\r' then skipWs cs else c :: cs

def hexVal (c : Char) : Option Nat :=
  if '0' ≤ c ∧ c ≤ '9' then some (c.toNat - 48)
  else if 'a' ≤ c ∧ c ≤ 'f' then some (c.toNat - 87)
  else if 'A' ≤ c ∧ c ≤ 'F' then some (c.toNat - 55)
  else none

/-- Parse the body of a JSON string (after the opening quote), handling the
escape sequences accepted by `JSON.parse`. -/
def parseStrBody (fuel : Nat) (cs : List Char) (acc : String) :
    Option (String × List Char) :=
  match fuel, cs with
  | 0, _ => none
  | _, [] => none
  | fuel + 1, c :: rest =>
      if c = quoteC then some (acc, rest)
      else if c = backslashC then
        match rest with
        | [] => none
        | e :: rest2 =>
            if e = quoteC then parseStrBody fuel rest2 (acc.push quoteC)
            else if e = backslashC then parseStrBody fuel rest2 (acc.push backslashC)
            else if e = '/' then parseStrBody fuel rest2 (acc.push '/')
            else if e = 'n' then parseStrBody fuel rest2 (acc.push '\n')
            else if e = 't' then parseStrBody fuel rest2 (acc.push '\t')
            else if e = 'r' then parseStrBody fuel rest2 (acc.push '\r')
            else if e = 'b' then parseStrBody fuel rest2 (acc.push (Char.ofNat 8))
            else if e = 'f' then parseStrBody fuel rest2 (acc.push (Char.ofNat 12))
            else if e = 'u' then
              match rest2 with
              | h1 :: h2 :: h3 :: h4 :: rest3 =>
                  match hexVal h1, hexVal h2, hexVal h3, hexVal h4 with
                  | some a, some b, some c3, some d =>
                      parseStrBody fuel rest3
                        (acc.push (Char.ofNat (((a * 16 + b) * 16 + c3) * 16 + d)))
                  | _, _, _, _ => none
              | _ => none
            else none
      else if c.toNat < 32 then none
      else parseStrBody fuel rest (acc.push c)

def isDigit (c : Char) : Bool := '0' ≤ c ∧ c ≤ '9'

/-- Parse a JSON number lexeme (strict grammar of `JSON.parse`). -/
def parseNumLex (cs : List Char) : Option (String × List Char) :=
  let (sign, cs1) :=
    match cs with
    | '-' :: rest => ("-", rest)
    | _ => ("", cs)
  let intPart : Option (String × List Char) :=
    match cs1 with
    | '0' :: rest => some ("0", rest)
    | c :: _ =>
        if isDigit c ∧ c ≠ '0' then
          let digits := cs1.takeWhile isDigit
          some (String.mk digits, cs1.dropWhile isDigit)
        else none
    | [] => none
  match intPart with
  | none => none
  | some (ip, cs2) =>
      let fracRes : Option (String × List Char) :=
        match cs2 with
        | '.' :: rest =>
            let digits := rest.takeWhile isDigit
            if digits = [] then none
            else some ("." ++ String.mk digits, rest.dropWhile isDigit)
        | _ => some ("", cs2)
      match fracRes with
      | none => none
      | some (fp, cs3) =>
        let (ep, cs4) :=
          match cs3 with
          | e :: rest =>
              if e = 'e' ∨ e = 'E' then
                let (es, rest2) :=
                  match rest with
                  | '+' :: r => ("+", r)
                  | '-' :: r => ("-", r)
                  | _ => ("", rest)
                let digits := rest2.takeWhile isDigit
                if digits = [] then ("", cs3)
                else (String.singleton e ++ es ++ String.mk digits, rest2.dropWhile isDigit)
              else ("", cs3)
          | [] => ("", cs3)
        some (sign ++ ip ++ fp ++ ep, cs4)

mutual

/-- Parse one JSON value. -/
def parseVal : Nat → List Char → Option (Json × List Char)
  | 0, _ => none
  | fuel + 1, cs =>
      match skipWs cs with
      | [] => none
      | c :: rest =>
          if c = lbrace then
            match skipWs rest with
            | d :: rest2 =>
                if d = rbrace then some (Json.obj [], rest2)
                else parseMembers fuel (d :: rest2) []
            | [] => none
          else if c = lbrack then
            match skipWs rest with
            | d :: rest2 =>
                if d = rbrack then some (Json.arr [], rest2)
                else parseElems fuel (d :: rest2) []
            | [] => none
          else if c = quoteC then
            match parseStrBody (rest.length + 1) rest "" with
            | some (s, rest2) => some (Json.str s, rest2)
            | none => none
          else if c = 't' then
            match rest with
            | 'r' :: 'u' :: 'e' :: rest2 => some (Json.bool true, rest2)
            | _ => none
          else if c = 'f' then
            match rest with
            | 'a' :: 'l' :: 's' :: 'e' :: rest2 => some (Json.bool false, rest2)
            | _ => none
          else if c = 'n' then
            match rest with
            | 'u' :: 'l' :: 'l' :: rest2 => some (Json.null, rest2)
            | _ => none
          else
            match parseNumLex (c :: rest) with
            | some (lex, rest2) => some (Json.num lex, rest2)
            | none => none

/-- Parse the members of an object, positioned at the start of a key. -/
def parseMembers : Nat → List Char → List (String × Json) →
    Option (Json × List Char)
  | 0, _, _ => none
  | fuel + 1, cs, acc =>
      match skipWs cs with
      | c :: rest =>
          if c = quoteC then
            match parseStrBody (rest.length + 1) rest "" with
            | some (key, rest2) =>
                match skipWs rest2 with
                | ':' :: rest3 =>
                    match parseVal fuel rest3 with
                    | some (v, rest4) =>
                        match skipWs rest4 with
                        | ',' :: rest5 => parseMembers fuel rest5 (acc ++ [(key, v)])
                        | d :: rest5 =>
                            if d = rbrace then some (Json.obj (acc ++ [(key, v)]), rest5)
                            else none
                        | [] => none
                    | none => none
                | _ => none
            | none => none
          else none
      | [] => none

/-- Parse the elements of an array, positioned at the start of a value. -/
def parseElems : Nat → List Char → List Json → Option (Json × List Char)
  | 0, _, _ => none
  | fuel + 1, cs, acc =>
      match parseVal fuel cs with
      | some (v, rest) =>
          match skipWs rest with
          | ',' :: rest2 => parseElems fuel rest2 (acc ++ [v])
          | d :: rest2 =>
              if d = rbrack then some (Json.arr (acc ++ [v]), rest2)
              else none
          | [] => none
      | none => none

end

/-- `JSON.parse`: parse a complete JSON document, `none` on any syntax
error. -/
def jsonParse (s : String) : Option Json :=
  match parseVal (s.length + 1) s.data with
  | some (j, rest) => if skipWs rest = [] then some j else none
  | none => none

/-! ## JS semantics over parsed JSON values -/

/-- Is a JSON number lexeme the number zero (`0`, `-0`, `0.0`, `0e5`, …)? -/
def numLexZero (raw : String) : Bool :=
  let mantissa := (jsSplit raw "e").headD raw
  let mantissa := (jsSplit mantissa "E").headD mantissa
  mantissa.data.all (fun c => ¬ ('1' ≤ c ∧ c ≤ '9'))

/-- JS truthiness of a JSON value. -/
def jsTruthy : Json → Bool
  | Json.null => false
  | Json.bool b => b
  | Json.num raw => ¬ numLexZero raw
  | Json.str s => s ≠ ""
  | Json.arr _ => true
  | Json.obj _ => true

/-- Property lookup on a JSON object (first matching key, as produced by
`JSON.parse`, which keeps the last duplicate — our parser keeps all entries
and we look up the last one to match). -/
def getField (j : Json) (k : String) : Option Json :=
  match j with
  | Json.obj fields => (fields.filter (fun f => f.1 = k)).getLast?.map (·.2)
  | _ => none

mutual

/-- JS `String(v)` / template-literal stringification of a JSON value. -/
def jsToString : Json → String
  | Json.null => "null"
  | Json.bool true => "true"
  | Json.bool false => "false"
  | Json.num raw => raw
  | Json.str s => s
  | Json.arr xs => joinSep "," (jsToStringElems xs)
  | Json.obj _ => "[object Object]"

/-- Elements of `Array.prototype.toString`: `null` elements render empty. -/
def jsToStringElems : List Json → List String
  | [] => []
  | Json.null :: rest => "" :: jsToStringElems rest
  | j :: rest => jsToString j :: jsToStringElems rest

end

/-- JS property access `r.k` stringified inside a template literal.  Throws
(`TypeError`) on `null`; yields `"undefined"` on primitives without the
property. -/
def jsPropStr (r : Json) (k : String) : Except String String :=
  match r with
  | Json.null => Except.error "TypeError"
  | Json.obj _ =>
      match getField r k with
      | some v => Except.ok (jsToString v)
      | none => Except.ok "undefined"
  | _ => Except.ok "undefined"

/-- `data.k || dflt` for a default JSON value. -/
def truthyFieldD (data : Json) (k : String) (dflt : Json) : Json :=
  match getField data k with
  | some v => if jsTruthy v then v else dflt
  | none => dflt

/-- `data.k || []` followed by `.map` — an array field; falsy yields `[]`, a
truthy non-array throws (its `.map` is not a function). -/
def jsArrayField (data : Json) (k : String) : Except String (List Json) :=
  match getField data k with
  | none => Except.ok []
  | some v =>
      if jsTruthy v then
        match v with
        | Json.arr xs => Except.ok xs
        | _ => Except.error "TypeError"
      else Except.ok []

/-- `(data.k || dflt).slice(0, n)` where `dflt` is a string literal: strings
slice to `n` code points, arrays slice as arrays (then stringify), any other
truthy value throws. -/
def jsSliceField (data : Json) (k dflt : String) (n : Nat) : Except String String :=
  let v : Json :=
    match getField data k with
    | some j => if jsTruthy j then j else Json.str dflt
    | none => Json.str dflt
  match v with
  | Json.str s => Except.ok (strTake s n)
  | Json.arr xs => Except.ok (jsToString (Json.arr (xs.take n)))
  | _ => Except.error "TypeError"

/-- `JSON.parse` as a throwing operation. -/
def jsonParseE (s : String) : Except String Json :=
  match jsonParse s with
  | some j => Except.ok j
  | none => Except.error "SyntaxError"

/-- The match `content.match(/\x7b[\s\S]*\x7d/)`: the greedy regex matches
from the first `\x7b` of the string to the last `\x7d`, provided that closing
brace comes after the opening one; otherwise there is no match. -/
def jsonRegionMatch (s : String) : Option String :=
  match s.data.findIdx? (fun c => c = lbrace) with
  | none => none
  | some i =>
      match (s.data.reverse.findIdx? (fun c => c = rbrace)).map
          (fun r => s.data.length - 1 - r) with
      | none => none
      | some j =>
          if i < j then some (String.mk ((s.data.drop i).take (j - i + 1)))
          else none

/-! ## Display formatter (render.ts `getToolDisplay`)

The formatter is modelled in `Except String`, with JS exceptions as
`Except.error`; every `try { … } catch` of the source appears as a `match` on
the `Except` value of the guarded block. -/

/-- `ToolDisplay` of render.ts. -/
structure ToolDisplay where
  line1 : String
  line2 : String
  has_line2 : Bool
deriving DecidableEq, Repr

/-- `ToolArgs` of render.ts (the typed fields the formatter reads). -/
structure ToolArgs where
  file_path : Option String
  directory_path : Option String
  pattern : Option String
  query : Option String
  url : Option String
  page_id : Option String
  offset : Option Int
  limit : Option Int
deriving DecidableEq, Repr

def emptyArgs : ToolArgs := ⟨none, none, none, none, none, none, none, none⟩

/-- JS truthiness of an optional number (`undefined` and `0` are falsy). -/
def truthyInt (o : Option Int) : Option Int :=
  match o with
  | some v => if v = 0 then none else some v
  | none => none

/-- The capture of `/\x5d (.+?)(?: \(|$)/` applied to one `list_dir` result
line: the text after the first `\x5d ` whose remainder is non-empty, cut
lazily before the first ` (` (or running to the end of the line), empty when
the regex does not match. -/
def listDirEntryName (l : String) : String :=
  let parts := jsSplit l "] "
  if parts.length ≤ 1 then ""
  else
    let rest := joinSep "] " parts.tail
    if rest = "" then ""
    else
      let t := strDrop rest 1
      match (jsSplit t " (").head? with
      | some pre => if pre.length = t.length then rest else strTake rest (1 + pre.length)
      | none => rest

/-- The default display rule of `getToolDisplay` (render.ts 364–374). -/
def defaultDisplay (content : String) : ToolDisplay :=
  if jsIncludes content "\n" then
    let lines := jsSplit content "\n"
    ⟨strTake (lines.headD "") 100, joinSep "\n" ((lines.drop 1).take 9), true⟩
  else ⟨strTake content 100, "", false⟩

/-- The `try { if (m) { … return d } } catch {}; return fallback` pattern
shared by the three embedded-JSON rules: a thrown exception or a missing
regex match both fall back. -/
def jsTryCatch (attempt : Except String (Option ToolDisplay)) (fallback : ToolDisplay) :
    Except String ToolDisplay :=
  match attempt with
  | Except.ok (some d) => Except.ok d
  | Except.ok none => Except.ok fallback
  | Except.error _ => Except.ok fallback

/-- The body of the `search_web` try-block (render.ts 300–313): extract the
regex region, parse, and render the ranked result list; `ok none` models
falling through (no regex match), `error` a thrown exception. -/
def searchWebAttempt (content : String) (args : ToolArgs) :
    Except String (Option ToolDisplay) :=
  match jsonRegionMatch content with
  | none => Except.ok none
  | some region => do
      let data ← jsonParseE region
      let results ← jsArrayField data "results"
      let lines ← results.mapM (fun r => do
        let idv ← jsPropStr r "id"
        let tv ← jsPropStr r "title"
        pure ("[" ++ idv ++ "] " ++ tv))
      pure (some ⟨toString results.length ++ "条 \"" ++ args.query.getD "" ++ "\"",
        joinSep "\n" lines, decide (results.length > 0)⟩)

/-- The body of the `load_url_content` try-block (render.ts 318–336). -/
def loadUrlAttempt (content : String) (_args : ToolArgs) :
    Except String (Option ToolDisplay) :=
  match jsonRegionMatch content with
  | none => Except.ok none
  | some region => do
      let data ← jsonParseE region
      let title ← jsSliceField data "title" "无标题" 100
      let urlIdJ := truthyFieldD data "url_id" (Json.str "")
      let pages ← jsArrayField data "pages"
      let lines ← pages.mapM (fun p => do
        let pid ← jsPropStr p "page_id"
        let ps ← jsPropStr p "summary"
        pure ("[" ++ pid ++ "] " ++ ps))
      let line1 :=
        if jsTruthy urlIdJ then "[" ++ jsToString urlIdJ ++ "] " ++ title else title
      pure (some ⟨line1, joinSep "\n" lines, decide (pages.length > 0)⟩)

/-- The body of the `read_page` try-block (render.ts 341–360). -/
def readPageAttempt (content : String) (args : ToolArgs) :
    Except String (Option ToolDisplay) :=
  match jsonRegionMatch content with
  | none => Except.ok none
  | some region => do
      let data ← jsonParseE region
      let pageNum := truthyFieldD data "page_num" (Json.str "?")
      let total := truthyFieldD data "total_pages" (Json.str "?")
      let size := truthyFieldD data "size" (Json.num "0")
      pure (some ⟨"[" ++ args.page_id.getD "" ++ "] 第" ++ jsToString pageNum ++ "/" ++
        jsToString total ++ "页 (" ++ jsToString size ++ "字节)", "", false⟩)

/-- `getToolDisplay` (render.ts 219–375).  The second parameter is the
source's `resultText`; the source's `const content = resultText || ''` is the
identity here (Lean strings are never null), so the parameter is simply named
`content`.  The result type `Except String ToolDisplay` models that the JS
function could raise; every raise point of the source sits inside a `try`
whose `catch` ignores the exception (`jsTryCatch`). -/
def getToolDisplay (toolName content : String) (args : ToolArgs) :
    Except String ToolDisplay :=
  if toolName = "read_file" then
    let path := args.file_path.getD ""
    let filename := basename path
    let totalLines := (jsSplit content "\n").length
    let rangeStr :=
      match truthyInt args.offset, truthyInt args.limit with
      | some off, some lim =>
          "(" ++ toString off ++ "-" ++ toString (off + lim - 1) ++ "/" ++
            toString totalLines ++ "行)"
      | some off, none => "(" ++ toString off ++ "-end/" ++ toString totalLines ++ "行)"
      | none, _ => "(all " ++ toString totalLines ++ "行)"
    Except.ok ⟨filename ++ " " ++ rangeStr, "", false⟩
  else if ["write_to_file", "delete_file", "edit", "multi_edit"].contains toolName then
    Except.ok ⟨basename (args.file_path.getD ""), "", false⟩
  else if toolName = "list_dir" then
    let path := args.directory_path.getD "."
    let lines := (jsSplit content "\n").filter (fun l => jsStartsWith l "[")
    let count := lines.length
    let preview := joinSep ", "
      (((lines.take 3).map listDirEntryName).filter (fun x => x ≠ ""))
    Except.ok ⟨path,
      preview ++ (if count > 3 then "... (+" ++ toString (count - 3) ++ ")" else ""),
      decide (count > 0)⟩
  else if toolName = "find_by_name" then
    let pattern := args.pattern.getD ""
    let items := (jsSplit content "\n").filter (fun x => x ≠ "")
    let count := items.length
    if count = 0 then Except.ok ⟨"\"" ++ pattern ++ "\" 无匹配", "", false⟩
    else
      let names := (items.take 3).map basename
      let preview := joinSep ", " names
      Except.ok ⟨"\"" ++ pattern ++ "\" " ++ toString count ++ "匹配",
        preview ++ (if count > 3 then "... (+" ++ toString (count - 3) ++ ")" else ""),
        true⟩
  else if toolName = "grep_search" then
    let query := args.query.getD ""
    let trimmed := jsTrim content
    if trimmed = "" ∨ jsIncludes (jsToLower trimmed) "no matches" then
      Except.ok ⟨"\"" ++ query ++ "\" 无匹配", "", false⟩
    else
      let lines := jsSplit trimmed "\n"
      let headLine := lines.headD ""
      let summary := strTake headLine 100 ++ (if headLine.length > 100 then "..." else "")
      Except.ok ⟨"\"" ++ query ++ "\"",
        summary ++ (if lines.length > 1 then " (+" ++ toString (lines.length - 1) ++ ")" else ""),
        true⟩
  else if toolName = "search_web" then
    jsTryCatch (searchWebAttempt content args)
      ⟨"\"" ++ args.query.getD "" ++ "\"", "", false⟩
  else if toolName = "load_url_content" then
    jsTryCatch (loadUrlAttempt content args)
      ⟨strTake (args.url.getD "") 100, "", false⟩
  else if toolName = "read_page" then
    jsTryCatch (readPageAttempt content args)
      ⟨"[" ++ args.page_id.getD "" ++ "]", "", false⟩
  else
    Except.ok (defaultDisplay content)

/-- The value `getToolDisplay` produces, with the (never-occurring, see the
totality theorem) error case mapped to an inert display; this is what the
session reloader consumes. -/
def getToolDisplayRun (toolName resultText : String) (args : ToolArgs) : ToolDisplay :=
  match getToolDisplay toolName resultText args with
  | Except.ok d => d
  | Except.error _ => ⟨"", "", false⟩

/-! ## Persisted session chunks and reconstruction (chat.ts `loadSessionChunks`) -/

/-- `arguments` of a persisted tool call: a raw JSON string or an already
structured object. -/
inductive ArgSrc where
  | str (s : String)
  | obj (a : ToolArgs)
deriving DecidableEq, Repr

/-- `tool_calls[i].function` of a persisted chunk. -/
structure ToolCallFn where
  name : Option String
  arguments : Option ArgSrc
deriving DecidableEq, Repr

/-- `ToolCall` of chat.ts. -/
structure ToolCall where
  id : String
  function : Option ToolCallFn
deriving DecidableEq, Repr

/-- `ChunkMetadata` of chat.ts. -/
structure ChunkMetadata where
  tool_calls : Option (List ToolCall)
  tool_call_id : Option String
  name : Option String
deriving DecidableEq, Repr

inductive ChunkType where
  | user
  | assistant
  | tool_result
deriving DecidableEq, Repr

/-- `SessionChunk` of chat.ts: one persisted flat-log record. -/
structure SessionChunk where
  type : ChunkType
  content : Option String
  metadata : Option ChunkMetadata
deriving DecidableEq, Repr

/-- Read a parsed JSON arguments object back as the typed `ToolArgs` the
formatter consumes (`JSON.parse(args) as ToolArgs`): string-typed fields are
kept when strings, the numeric range fields when integral numbers. -/
def jsonToToolArgs (j : Json) : ToolArgs :=
  let strF (k : String) : Option String :=
    match getField j k with
    | some (Json.str s) => some s
    | _ => none
  let intF (k : String) : Option Int :=
    match getField j k with
    | some (Json.num raw) => jsToInt raw
    | _ => none
  ⟨strF "file_path", strF "directory_path", strF "pattern", strF "query",
    strF "url", strF "page_id", intF "offset", intF "limit"⟩

/-- `const args = func.arguments || '\x7b\x7d'` followed by the
string-vs-object dispatch with a `catch` yielding `\x7b\x7d` (chat.ts
333–344). -/
def resolveTcArgs (tc : ToolCall) : ToolArgs :=
  let argSrc : ArgSrc :=
    match tc.function with
    | some f =>
        match f.arguments with
        | some (ArgSrc.str s) => if s = "" then ArgSrc.str "\x7b\x7d" else ArgSrc.str s
        | some (ArgSrc.obj a) => ArgSrc.obj a
        | none => ArgSrc.str "\x7b\x7d"
    | none => ArgSrc.str "\x7b\x7d"
  match argSrc with
  | ArgSrc.str s =>
      match jsonParse s with
      | some j => jsonToToolArgs j
      | none => emptyArgs
  | ArgSrc.obj a => a

/-- A buffered `tool_result` record (chat.ts 272–276, 361–367). -/
structure ToolResultRec where
  toolCallId : Option String
  toolName : String
  content : String
deriving DecidableEq, Repr

/-- The local state of the `loadSessionChunks` walk.  `curElExists` models
whether `currentAssistantMsgEl` is non-null; `nextId` the id generator. -/
structure ReconState where
  messages : List Message
  turns : List Turn
  toolResults : List ToolResultRec
  toolArgsMap : List (String × ToolArgs)
  curParts : List TurnPart
  curMsgId : Option String
  curElExists : Bool
  nextId : Nat
deriving DecidableEq, Repr

def initRecon : ReconState := ⟨[], [], [], [], [], none, false, 0⟩

def freshRid (st : ReconState) : String × ReconState :=
  ("msg-" ++ toString st.nextId, { st with nextId := st.nextId + 1 })

/-- `Map.set` on the correlation map: a later `set` for the same id
overrides, modelled by cons-front with first-match lookup. -/
def argsMapSet (m : List (String × ToolArgs)) (k : String) (v : ToolArgs) :
    List (String × ToolArgs) :=
  (k, v) :: m

/-- `toolArgsMap.get(key) || \x7b\x7d`. -/
def argsMapGet (m : List (String × ToolArgs)) (k : String) : ToolArgs :=
  match m.find? (fun p => p.1 = k) with
  | some p => p.2
  | none => emptyArgs

/-- `currentAssistantParts.find(p => p.type === 'text')?.text || ''`. -/
def firstTextD : List TurnPart → String
  | [] => ""
  | TurnPart.text s :: _ => s
  | TurnPart.tool _ _ :: rest => firstTextD rest

/-- Append the tool parts of one `tool_calls` array and record their parsed
arguments (chat.ts 331–359). -/
def applyToolCalls (tcs : List ToolCall) (st : ReconState) : ReconState :=
  tcs.foldl
    (fun st tc =>
      { st with
          toolArgsMap := argsMapSet st.toolArgsMap tc.id (resolveTcArgs tc)
          curParts := st.curParts ++
            [TurnPart.tool tc.id (tc.function.bind (fun f => f.name))] })
    st

/-- Process one chunk of the flat log (the body of the `chunks.forEach` of
chat.ts 283–368). -/
def reconChunk (st : ReconState) (chunk : SessionChunk) : ReconState :=
  match chunk.type with
  | ChunkType.user =>
      let st1 :=
        if st.curParts.length > 0 then
          { st with
              turns := st.turns ++
                [⟨Role.assistant, st.curMsgId, firstTextD st.curParts, st.curParts⟩]
              curParts := []
              curMsgId := none
              curElExists := false }
        else st
      let (msgId, st2) := freshRid st1
      { st2 with
          messages := st2.messages ++ [⟨msgId, Role.user, chunk.content.getD ""⟩]
          turns := st2.turns ++ [⟨Role.user, some msgId, chunk.content.getD "", []⟩] }
  | ChunkType.assistant =>
      let st1 :=
        if st.curElExists then
          if chunk.content.getD "" ≠ "" then
            { st with curParts := st.curParts ++ [TurnPart.text (chunk.content.getD "")] }
          else st
        else
          let (msgId, st') := freshRid st
          let st'' :=
            { st' with
                curMsgId := some msgId
                messages := st'.messages ++ [⟨msgId, Role.assistant, chunk.content.getD ""⟩]
                curElExists := true }
          if chunk.content.getD "" ≠ "" then
            { st'' with curParts := st''.curParts ++ [TurnPart.text (chunk.content.getD "")] }
          else st''
      match chunk.metadata.bind (fun m => m.tool_calls) with
      | some tcs => applyToolCalls tcs st1
      | none => st1
  | ChunkType.tool_result =>
      let nm := (chunk.metadata.bind (fun m => m.name)).getD ""
      { st with
          toolResults := st.toolResults ++
            [⟨chunk.metadata.bind (fun m => m.tool_call_id),
              if nm = "" then "unknown" else nm,
              chunk.content.getD ""⟩] }

def reconChunks : List SessionChunk → ReconState → ReconState
  | [], st => st
  | c :: cs, st => reconChunks cs (reconChunk st c)

/-- The trailing flush after the walk (chat.ts 370–377). -/
def finalizeRecon (st : ReconState) : List Turn :=
  if st.curParts.length > 0 then
    st.turns ++ [⟨Role.assistant, st.curMsgId, firstTextD st.curParts, st.curParts⟩]
  else st.turns

/-- `ChatHistory.loadSessionChunks` (chat.ts 266–388): clear, walk the log,
flush the trailing assistant accumulation, then — only after the entire walk
— apply every buffered tool result as a correlation resolution.  The second
component is the ordered list of `updateToolElement` resolutions
`(tool_call_id, display)`. -/
def loadSessionChunks (chunks : List SessionChunk) :
    ChatState × List (Option String × ToolDisplay) :=
  let st := reconChunks chunks initRecon
  let turns := finalizeRecon st
  let resolutions := st.toolResults.map (fun r =>
    (r.toolCallId,
      getToolDisplayRun r.toolName r.content
        (argsMapGet st.toolArgsMap (r.toolCallId.getD ""))))
  (⟨st.messages, turns, none, false, st.nextId⟩, resolutions)

/-! ## Streaming text buffer (main entry module: `startStream` / `appendStream`
/ `endStream`)

`AppState.streamBuf` accumulates every `text_delta` of one streamed segment;
only `endStream` hands the coalesced buffer to `ChatHistory.onStreamEnd`.
`elExists` models that the content element with the stream's id is present in
the document (every branch of `startStream` establishes it); `appendStream`
returns without buffering when it finds no content element. -/

structure AppStreamState where
  streamId : Option String
  streamBuf : String
  elExists : Bool
deriving DecidableEq, Repr

/-- `startStream(id)`: reset the buffer, ensure a content element for `id`
exists, and notify `ChatHistory.onStreamStart`. -/
def startStream (id : String) (_a : AppStreamState) (c : ChatState) :
    AppStreamState × ChatState :=
  ((⟨some id, "", true⟩ : AppStreamState), onStreamStart id c)

/-- `appendStream(id, text)`: append the delta to the buffer (after locating
the content element). -/
def appendStream (a : AppStreamState) (text : String) : AppStreamState :=
  if a.elExists then { a with streamBuf := a.streamBuf ++ text } else a

/-- `endStream(id)`: hand the coalesced buffer to
`ChatHistory.onStreamEnd` and reset the stream state. -/
def endStream (a : AppStreamState) (c : ChatState) : AppStreamState × ChatState :=
  ((⟨none, "", a.elExists⟩ : AppStreamState), onStreamEnd a.streamBuf c)

/-- Concatenation of a list of delta texts in arrival order. -/
def concatAll : List String → String
  | [] => ""
  | s :: ss => s ++ concatAll ss

/-- One full streamed text segment: `startStream`, the deltas, `endStream`. -/
def streamSegment (id : String) (deltas : List String) (c : ChatState) : ChatState :=
  let ac1 := startStream id ⟨none, "", false⟩ c
  let a2 := deltas.foldl appendStream ac1.1
  (endStream a2 ac1.2).2

/-! ## Equivalent flat logs for live event sequences (claim C1)

A live event maps to the flat-log records the backend would persist for it:
a user submission to a `user` record, a streamed text segment to an
`assistant` record carrying its text, a tool start to an `assistant` record
carrying one `tool_calls` entry.  Stream-start markers and turn boundaries
leave no record. -/

def eventToChunks : LiveEvent → List SessionChunk
  | LiveEvent.user t => [⟨ChunkType.user, some t, none⟩]
  | LiveEvent.streamEnd t => [⟨ChunkType.assistant, some t, none⟩]
  | LiveEvent.toolStart i n =>
      [⟨ChunkType.assistant, some "",
        some ⟨some [⟨i, some ⟨some n, none⟩⟩], none, none⟩⟩]
  | LiveEvent.streamStart _ => []
  | LiveEvent.turnEnd => []

def flatMapC (f : α → List β) : List α → List β
  | [] => []
  | a :: as => f a ++ flatMapC f as

/-- The equivalent flat log of a live event sequence. -/
def eventsToChunks (es : List LiveEvent) : List SessionChunk :=
  flatMapC eventToChunks es

/-- Structural comparison of turns ignores the wall-clock message ids (spec:
same roles, same part sequence, same ids — `TurnPart` carries the tool
ids). -/
def stripTurn (t : Turn) : Turn := { t with msgId := none }

/-! ### Well-formed (round-structured) live event sequences

Events inside one assistant turn. -/

inductive MidEvent where
  | streamStart (msgId : String)
  | streamEnd (text : String)
  | toolStart (id : String) (name : String)
deriving DecidableEq, Repr

def midToLive : MidEvent → LiveEvent
  | MidEvent.streamStart m => LiveEvent.streamStart m
  | MidEvent.streamEnd t => LiveEvent.streamEnd t
  | MidEvent.toolStart i n => LiveEvent.toolStart i n

/-- One complete round: a user submission, the assistant events it provokes,
and the closing turn boundary. -/
structure Round where
  userText : String
  mids : List MidEvent
deriving DecidableEq, Repr

def roundEvents (r : Round) : List LiveEvent :=
  LiveEvent.user r.userText :: (r.mids.map midToLive ++ [LiveEvent.turnEnd])

def eventsOfRounds (rs : List Round) : List LiveEvent :=
  flatMapC roundEvents rs

/-- The parts an assistant turn accumulates from its mid-turn events. -/
def midParts : List MidEvent → List TurnPart
  | [] => []
  | MidEvent.streamEnd t :: rest =>
      if t ≠ "" then TurnPart.text t :: midParts rest else midParts rest
  | MidEvent.toolStart i n :: rest => TurnPart.tool i (some n) :: midParts rest
  | MidEvent.streamStart _ :: rest => midParts rest

/-- The canonical (id-stripped) turn list of one round: the user turn, then
the assistant turn when it accumulated at least one part. -/
def canonRound (r : Round) : List Turn :=
  ⟨Role.user, none, r.userText, []⟩ ::
    (if midParts r.mids = [] then []
     else [⟨Role.assistant, none, firstTextD (midParts r.mids), midParts r.mids⟩])

def canonTurns (rs : List Round) : List Turn := flatMapC canonRound rs

/-! ## Concrete states, inputs and derived notions used by the theorems -/

/-- A state whose open assistant turn holds non-empty contents. -/
def openTextState : ChatState :=
  ⟨[], [], some ⟨Role.assistant, none, "x", [TurnPart.text "x"]⟩, true, 0⟩

/-- A state with a freshly opened, still empty assistant turn. -/
def openEmptyState : ChatState :=
  ⟨[], [], some ⟨Role.assistant, none, "", []⟩, true, 0⟩

/-- A 50-line result text, for the range-suffix example. -/
def content50 : String :=
  joinSep "\n" ((List.range 50).map (fun i => "L" ++ toString i))

/-- Brace matching as the spec words it: scan from an opening brace, tracking
nesting depth, and stop where the depth first returns to zero. -/
def braceScan : List Char → Nat → List Char → Option (List Char)
  | [], _, _ => none
  | c :: rest, depth, acc =>
      if c = lbrace then braceScan rest (depth + 1) (c :: acc)
      else if c = rbrace then
        if depth = 1 then some (c :: acc).reverse
        else braceScan rest (depth - 1) (c :: acc)
      else braceScan rest depth (c :: acc)

/-- The extraction C8 describes — the *first top-level* `\x7b...\x7d` region
found by brace matching.  This follows the spec's words; it exists only to be
compared against the source's actual greedy-regex extraction
`jsonRegionMatch`. -/
def specFirstBraceRegion (s : String) : Option String :=
  match s.data.dropWhile (fun c => c ≠ lbrace) with
  | [] => none
  | cs => (braceScan cs 0 []).map String.mk

/-- A result blob embedding two JSON documents: the first top-level region
parses, the greedy first-`\x7b`-to-last-`\x7d` region does not. -/
def swTwoDocs : String :=
  "\x7b\"results\":[\x7b\"id\":\"1\",\"title\":\"t\"\x7d]\x7d\n\x7b\x7d"

/-- The first top-level brace region of `swTwoDocs`. -/
def swFirstDoc : String := "\x7b\"results\":[\x7b\"id\":\"1\",\"title\":\"t\"\x7d]\x7d"

def qArgs : ToolArgs := { emptyArgs with query := some "q" }

/-- A well-formed `search_web` result blob. -/
def swOk : String :=
  "found: \x7b\"results\": [\x7b\"id\": \"1\", \"title\": \"Alpha\"\x7d, \x7b\"id\": \"2\", \"title\": \"Beta\"\x7d]\x7d"

/-- A well-formed `load_url_content` result blob. -/
def luOk : String :=
  "\x7b\"title\":\"Page T\",\"url_id\":\"u7\",\"pages\":[\x7b\"page_id\":\"p1\",\"summary\":\"s1\"\x7d]\x7d"

/-- A well-formed `read_page` result blob. -/
def rpOk : String := "\x7b\"page_num\":2,\"total_pages\":5,\"size\":123\x7d"

def luArgs : ToolArgs := { emptyArgs with url := some "http" }

def rpArgs : ToolArgs := { emptyArgs with page_id := some "p1" }

/-- The buffered record a single flat-log chunk contributes (specification
vocabulary for the statement of C2: `tool_result` records and nothing
else). -/
def resultRecOf (chunk : SessionChunk) : List ToolResultRec :=
  match chunk.type with
  | ChunkType.tool_result =>
      let nm := (chunk.metadata.bind (fun m => m.name)).getD ""
      [⟨chunk.metadata.bind (fun m => m.tool_call_id),
        if nm = "" then "unknown" else nm, chunk.content.getD ""⟩]
  | _ => []

/-- The `(id, parsed arguments)` entries a single chunk's `tool_calls`
contribute to the correlation map. -/
def chunkArgSets (chunk : SessionChunk) : List (String × ToolArgs) :=
  match chunk.type, chunk.metadata.bind (fun m => m.tool_calls) with
  | ChunkType.assistant, some tcs => tcs.map (fun tc => (tc.id, resolveTcArgs tc))
  | _, _ => []

/-- The correlation map built by a full walk of the log (later `set`s for the
same id shadow earlier ones under first-match lookup). -/
def argsMapOf (chunks : List SessionChunk) : List (String × ToolArgs) :=
  (flatMapC chunkArgSets chunks).reverse

/-- The flat log of C2's example: `[user("hi"),
assistant("", tool_calls=[\x7bid:"t1", name:"x"\x7d]), assistant("done"),
tool_result(t1)]`. -/
def exampleLog : List SessionChunk :=
  [⟨ChunkType.user, some "hi", none⟩,
    ⟨ChunkType.assistant, some "",
      some ⟨some [⟨"t1", some ⟨some "x", none⟩⟩], none, none⟩⟩,
    ⟨ChunkType.assistant, some "done", none⟩,
    ⟨ChunkType.tool_result, some "ok", some ⟨none, some "t1", some "x"⟩⟩]

/-- The effect of one mid-turn event on the open assistant turn (the
turn-level content of `onStreamStart` / `onStreamEnd` / `addTool`). -/
def midApply (t : Turn) : MidEvent → Turn
  | MidEvent.streamStart m => if strTruthy t.msgId then t else { t with msgId := some m }
  | MidEvent.streamEnd x =>
      if x ≠ "" then
        { t with parts := t.parts ++ [TurnPart.text x], text := if t.text = "" then x else t.text }
      else t
  | MidEvent.toolStart i n => { t with parts := t.parts ++ [TurnPart.tool i (some n)] }

/-- The flat-log records of one assistant turn's events. -/
def midChunks (mids : List MidEvent) : List SessionChunk :=
  flatMapC eventToChunks (mids.map midToLive)

/-- The flat-log records of one round. -/
def roundChunks (r : Round) : List SessionChunk :=
  ⟨ChunkType.user, some r.userText, none⟩ :: midChunks r.mids

/-- The pending-assistant flush `loadSessionChunks` performs on a `user`
record or at the end of the walk. -/
def flushOf (st : ReconState) : List Turn :=
  if st.curParts = [] then []
  else [⟨Role.assistant, st.curMsgId, firstTextD st.curParts, st.curParts⟩]

/-- The event sequence refuting the unrestricted round-trip: a second user
submission while an assistant turn is open with buffered text. -/
def badEvents : List LiveEvent :=
  [LiveEvent.user "u1", LiveEvent.streamEnd "a", LiveEvent.user "u2",
    LiveEvent.turnEnd]

deriving instance DecidableEq for Except

/-! # Theorems -/

set_option maxRecDepth 8000

theorem strAppend_assoc (a b c : String) : a ++ b ++ c = a ++ (b ++ c) := by
  apply String.ext
  simp

theorem runLive_append (a b : List LiveEvent) (s : ChatState) :
    runLive (a ++ b) s = runLive b (runLive a s) := by
  induction a generalizing s with
  | nil => rfl
  | cons e es ih => simp [runLive, ih]

theorem flatMapC_append (f : α → List β) (xs ys : List α) :
    flatMapC f (xs ++ ys) = flatMapC f xs ++ flatMapC f ys := by
  induction xs with
  | nil => rfl
  | cons x xs ih => simp [flatMapC, ih]

/-! ## C4 — user submission versus the open assistant turn -/

/-- C4 (counterexample): with an assistant turn open and holding the
non-empty contents `[TextPart "x"]`, `addUserMessage "hi"` leaves the turn
list holding only the new user turn — the open assistant turn is never
appended, its contents are dropped, contradicting the claim that a user
submission first finalizes the open assistant turn. -/
theorem addUserMessage_drops_open_turn_cex :
    ((addUserMessage "hi" openTextState).2).turns =
        [⟨Role.user, some "msg-0", "hi", []⟩] ∧
      ¬ (⟨Role.assistant, none, "x", [TurnPart.text "x"]⟩ : Turn) ∈
        ((addUserMessage "hi" openTextState).2).turns := by
  decide

/-- C4 (amended): `addUserMessage` unconditionally appends the user turn to
the turn list — without finalizing a previously open assistant turn — and
replaces the open-turn slot with a fresh empty assistant placeholder. -/
theorem addUserMessage_appends_user_and_opens_placeholder (s : ChatState) (text : String) :
    ((addUserMessage text s).2).turns =
        s.turns ++ [⟨Role.user, some (addUserMessage text s).1, text, []⟩] ∧
      ((addUserMessage text s).2).currentTurn = some ⟨Role.assistant, none, "", []⟩ ∧
      ((addUserMessage text s).2).isInAssistantTurn = true := by
  refine ⟨rfl, rfl, rfl⟩

/-! ## C5 — `endAssistantTurn` -/

/-- C5: with an assistant turn open, `endAssistantTurn` appends it to the
finalized turn list iff it has at least one part or non-empty text, and in
both cases clears the open-turn slot, returning the engine to idle. -/
theorem endAssistantTurn_finalizes_iff (s : ChatState) (t : Turn)
    (hc : s.currentTurn = some t) (hin : s.isInAssistantTurn = true) :
    (endAssistantTurn s).turns =
        (if t.parts.length > 0 ∨ t.text ≠ "" then s.turns ++ [t] else s.turns) ∧
      (endAssistantTurn s).currentTurn = none ∧
      (endAssistantTurn s).isInAssistantTurn = false := by
  unfold endAssistantTurn
  rw [hc, hin]
  by_cases h : t.parts.length > 0 ∨ t.text ≠ ""
  all_goals simp [h]

/-- C5 (witness): the theorem applied to a state whose open turn has text
`"a"` and no parts (finalized), checking both the append and the reset. -/
theorem endAssistantTurn_finalizes_iff_witness :
    ((⟨[], [], some ⟨Role.assistant, none, "a", []⟩, true, 0⟩ : ChatState).currentTurn =
        some ⟨Role.assistant, none, "a", []⟩) ∧
      (endAssistantTurn ⟨[], [], some ⟨Role.assistant, none, "a", []⟩, true, 0⟩).turns =
        (if ([] : List TurnPart).length > 0 ∨ ("a" : String) ≠ "" then
          ([] : List Turn) ++ [⟨Role.assistant, none, "a", []⟩] else []) ∧
      (endAssistantTurn ⟨[], [], some ⟨Role.assistant, none, "a", []⟩, true, 0⟩).currentTurn =
        none ∧
      (endAssistantTurn ⟨[], [], some ⟨Role.assistant, none, "a", []⟩, true, 0⟩).isInAssistantTurn =
        false :=
  ⟨rfl, endAssistantTurn_finalizes_iff
    ⟨[], [], some ⟨Role.assistant, none, "a", []⟩, true, 0⟩
    ⟨Role.assistant, none, "a", []⟩ rfl rfl⟩

/-! ## C3 — duplicate tool-start ids -/

/-- C3 (counterexample): two `addTool` calls with the same `toolId` in the
same open turn silently produce two tool parts with that id — the second
start is neither rejected nor ignored, contradicting the claim. -/
theorem addTool_duplicate_id_cex :
    ((addTool "t1" "x" (addTool "t1" "x" openEmptyState)).currentTurn.map Turn.parts) =
        some [TurnPart.tool "t1" (some "x"), TurnPart.tool "t1" (some "x")] ∧
      (((addTool "t1" "x" (addTool "t1" "x" openEmptyState)).currentTurn.map
          (fun t => (t.parts.countP (fun p =>
            match p with
            | TurnPart.tool i _ => i = "t1"
            | TurnPart.text _ => false)))) = some 2) := by
  decide

/-- C3 (amended): `addTool` on an open assistant turn appends its tool part
unconditionally — in particular a repeated `toolId` yields a duplicate
`ToolPart`, with no rejection, logging, or first-wins handling. -/
theorem addTool_appends_unconditionally (s : ChatState) (t : Turn) (id name : String)
    (hc : s.currentTurn = some t) (hin : s.isInAssistantTurn = true) :
    (addTool id name s).currentTurn =
      some { t with parts := t.parts ++ [TurnPart.tool id (some name)] } := by
  unfold addTool
  rw [hc, hin]
  simp

/-- C3 (witness): the amended theorem applied to the open empty state. -/
theorem addTool_appends_unconditionally_witness :
    (openEmptyState.currentTurn = some ⟨Role.assistant, none, "", []⟩) ∧
      (addTool "t1" "x" openEmptyState).currentTurn =
        some ⟨Role.assistant, none, "",
          [] ++ [TurnPart.tool "t1" (some "x")]⟩ :=
  ⟨rfl, addTool_appends_unconditionally openEmptyState
    ⟨Role.assistant, none, "", []⟩ "t1" "x" rfl rfl⟩

/-! ## C7 / C10 — the `read_file` display rule -/

/-- C7 (counterexample): an explicitly supplied `offset = 0` with no limit is
*not* rendered in the `(offset-end/N行)` form the claim requires for "only
offset given": the code tests truthiness, `0` is falsy, and the `(all N行)`
form is produced instead. -/
theorem read_file_offset_zero_cex :
    getToolDisplay "read_file" "l1"
        { emptyArgs with file_path := some "a/b.txt", offset := some 0 } =
      Except.ok ⟨"b.txt (all 1行)", "", false⟩ ∧
      ("b.txt (all 1行)" : String) ≠ "b.txt (0-end/1行)" := by
  decide

/-- C7 (amended): `read_file` renders the basename of `args.file_path`
(stripping both separators) followed by `(all N行)` when neither offset nor
limit is given, `(offset-end/N行)` when only a *non-zero* offset is given,
and `(offset-(offset+limit-1)/N行)` when both are given non-zero, with `N`
the line count of the result text and no second line; in particular
`offset=10, limit=5` over a 50-line result ends in `(10-14/50行)`. -/
theorem read_file_display (content path : String) (off lim : Int)
    (hoff : off ≠ 0) (hlim : lim ≠ 0) :
    (getToolDisplay "read_file" content { emptyArgs with file_path := some path } =
        Except.ok ⟨basename path ++ " (all " ++
          toString (jsSplit content "\n").length ++ "行)", "", false⟩) ∧
      (getToolDisplay "read_file" content
          { emptyArgs with file_path := some path, offset := some off } =
        Except.ok ⟨basename path ++ " (" ++ toString off ++ "-end/" ++
          toString (jsSplit content "\n").length ++ "行)", "", false⟩) ∧
      (getToolDisplay "read_file" content
          { emptyArgs with file_path := some path, offset := some off, limit := some lim } =
        Except.ok ⟨basename path ++ " (" ++ toString off ++ "-" ++
          toString (off + lim - 1) ++ "/" ++
          toString (jsSplit content "\n").length ++ "行)", "", false⟩) ∧
      getToolDisplay "read_file" content50
          { emptyArgs with file_path := some "/a/b/file.txt", offset := some 10, limit := some 5 } =
        Except.ok ⟨"file.txt (10-14/50行)", "", false⟩ := by
  refine ⟨?_, ?_, ?_, by decide⟩
  · simp [getToolDisplay, truthyInt, emptyArgs, strAppend_assoc]
    rw [← strAppend_assoc " " "(all "]; rfl
  · simp [getToolDisplay, truthyInt, emptyArgs, hoff, strAppend_assoc]
    rw [← strAppend_assoc " " "("]; rfl
  · simp [getToolDisplay, truthyInt, emptyArgs, hoff, hlim, strAppend_assoc]
    rw [← strAppend_assoc " " "("]; rfl

/-- C7 (witness): the amended theorem at `off = 10`, `lim = 5` over a
two-line result. -/
theorem read_file_display_witness :
    ((10 : Int) ≠ 0 ∧ (5 : Int) ≠ 0) ∧
      ((getToolDisplay "read_file" "l1\nl2" { emptyArgs with file_path := some "a/b.txt" } =
        Except.ok ⟨basename "a/b.txt" ++ " (all " ++
          toString (jsSplit "l1\nl2" "\n").length ++ "行)", "", false⟩) ∧
      (getToolDisplay "read_file" "l1\nl2"
          { emptyArgs with file_path := some "a/b.txt", offset := some 10 } =
        Except.ok ⟨basename "a/b.txt" ++ " (" ++ toString (10 : Int) ++ "-end/" ++
          toString (jsSplit "l1\nl2" "\n").length ++ "行)", "", false⟩) ∧
      (getToolDisplay "read_file" "l1\nl2"
          { emptyArgs with file_path := some "a/b.txt", offset := some 10, limit := some 5 } =
        Except.ok ⟨basename "a/b.txt" ++ " (" ++ toString (10 : Int) ++ "-" ++
          toString ((10 : Int) + 5 - 1) ++ "/" ++
          toString (jsSplit "l1\nl2" "\n").length ++ "行)", "", false⟩) ∧
      getToolDisplay "read_file" content50
          { emptyArgs with file_path := some "/a/b/file.txt", offset := some 10, limit := some 5 } =
        Except.ok ⟨"file.txt (10-14/50行)", "", false⟩) :=
  ⟨⟨by decide, by decide⟩,
    read_file_display "l1\nl2" "a/b.txt" 10 5 (by decide) (by decide)⟩

/-- C10: in the `read_file` rule, offset and limit are tested for JS
truthiness, so an explicit `0` behaves exactly as an absent parameter: any
`offset = 0` call renders the `(all N行)` form regardless of the limit, and
a positive offset with `limit = 0` renders the `(offset-end/N行)` form. -/
theorem read_file_zero_is_absent (content path : String) (limOpt : Option Int)
    (off : Int) (hoff : 0 < off) :
    (getToolDisplay "read_file" content
        { emptyArgs with file_path := some path, offset := some 0, limit := limOpt } =
      Except.ok ⟨basename path ++ " (all " ++
        toString (jsSplit content "\n").length ++ "行)", "", false⟩) ∧
      (getToolDisplay "read_file" content
          { emptyArgs with file_path := some path, offset := some off, limit := some 0 } =
        Except.ok ⟨basename path ++ " (" ++ toString off ++ "-end/" ++
          toString (jsSplit content "\n").length ++ "行)", "", false⟩) := by
  have hne : off ≠ 0 := by omega
  constructor
  · simp [getToolDisplay, truthyInt, emptyArgs, strAppend_assoc]
    rw [← strAppend_assoc " " "(all "]; rfl
  · simp [getToolDisplay, truthyInt, emptyArgs, hne, strAppend_assoc]
    rw [← strAppend_assoc " " "("]; rfl

/-! ## C9 — totality of the formatter -/

/-- C9: `getToolDisplay` is total — for every tool name (known or unknown),
result text and typed arguments object it returns a display value and never
propagates an exception: each `JSON.parse` failure (and each JS `TypeError`
raised on unexpectedly-shaped parsed data) is caught by the per-rule
`catch`, which degrades to that rule's fallback, and the remaining rules
perform no throwing operation. -/
theorem exceptOk_of_isOk {e : Except String ToolDisplay} (h : e.isOk = true) :
    ∃ d, e = Except.ok d := by
  cases e with
  | ok d => exact ⟨d, rfl⟩
  | error x => exact Bool.noConfusion h

theorem jsTryCatch_isOk (a : Except String (Option ToolDisplay)) (fb : ToolDisplay) :
    (jsTryCatch a fb).isOk = true := by
  unfold jsTryCatch
  repeat' split
  all_goals rfl

theorem ifOk_isOk (c : Prop) [Decidable c] (a b : ToolDisplay) :
    (if c then (Except.ok a : Except String ToolDisplay) else Except.ok b).isOk = true := by
  split
  all_goals rfl

theorem getToolDisplay_total (toolName resultText : String) (args : ToolArgs) :
    ∃ d, getToolDisplay toolName resultText args = Except.ok d := by
  apply exceptOk_of_isOk
  unfold getToolDisplay
  repeat' split
  all_goals first
  | rfl
  | exact jsTryCatch_isOk _ _
  | exact ifOk_isOk _ _ _

/-! ## C8 — embedded-JSON tools -/

/-- C8 (counterexample): on a `search_web` result embedding two JSON
documents, the code does *not* extract the first top-level brace-matched
region: its greedy regex spans to the *last* `\x7d`, the parse fails, and the
per-tool fallback is returned — although the first top-level region parses
fine and rendering it (as the claim requires) would produce the ranked
result list; nor is the fallback the generic default display. -/
theorem search_web_region_cex :
    specFirstBraceRegion swTwoDocs = some swFirstDoc ∧
      jsonRegionMatch swTwoDocs = some swTwoDocs ∧
      (jsonParse swTwoDocs).isNone = true ∧
      (jsonParse swFirstDoc).isSome = true ∧
      getToolDisplay "search_web" swFirstDoc qArgs =
        Except.ok ⟨"1条 \"q\"", "[1] t", true⟩ ∧
      getToolDisplay "search_web" swTwoDocs qArgs = Except.ok ⟨"\"q\"", "", false⟩ ∧
      ((⟨"\"q\"", "", false⟩ : ToolDisplay) ≠ ⟨"1条 \"q\"", "[1] t", true⟩) ∧
      ((⟨"\"q\"", "", false⟩ : ToolDisplay) ≠ defaultDisplay swTwoDocs) := by
  decide

/-- C8 (amended): the three embedded-JSON tools extract the region running
from the *first* `\x7b` to the *last* `\x7d` of the result text (the greedy
regex — not first-top-level brace matching), parse it, and render their
type-specific fields; whenever that region is absent or fails to parse they
fall back to their per-tool degraded display (query / url / page-id based,
not the generic default rule). -/
theorem json_tools_region_and_fallback (content : String) (args : ToolArgs)
    (h : jsonRegionMatch content = none ∨
      ∃ region, jsonRegionMatch content = some region ∧ jsonParse region = none) :
    (getToolDisplay "search_web" content args =
        Except.ok ⟨"\"" ++ args.query.getD "" ++ "\"", "", false⟩ ∧
      getToolDisplay "load_url_content" content args =
        Except.ok ⟨strTake (args.url.getD "") 100, "", false⟩ ∧
      getToolDisplay "read_page" content args =
        Except.ok ⟨"[" ++ args.page_id.getD "" ++ "]", "", false⟩) ∧
      (getToolDisplay "search_web" swOk qArgs =
        Except.ok ⟨"2条 \"q\"", "[1] Alpha\n[2] Beta", true⟩ ∧
      getToolDisplay "load_url_content" luOk luArgs =
        Except.ok ⟨"[u7] Page T", "[p1] s1", true⟩ ∧
      getToolDisplay "read_page" rpOk rpArgs =
        Except.ok ⟨"[p1] 第2/5页 (123字节)", "", false⟩) := by
  refine ⟨?_, by decide, by decide, by decide⟩
  have esw : getToolDisplay "search_web" content args =
      jsTryCatch (searchWebAttempt content args)
        ⟨"\"" ++ args.query.getD "" ++ "\"", "", false⟩ := rfl
  have elu : getToolDisplay "load_url_content" content args =
      jsTryCatch (loadUrlAttempt content args)
        ⟨strTake (args.url.getD "") 100, "", false⟩ := rfl
  have erp : getToolDisplay "read_page" content args =
      jsTryCatch (readPageAttempt content args)
        ⟨"[" ++ args.page_id.getD "" ++ "]", "", false⟩ := rfl
  rw [esw, elu, erp]
  rcases h with hnone | ⟨region, hreg, hparse⟩
  · rw [searchWebAttempt, loadUrlAttempt, readPageAttempt, hnone]
    exact ⟨rfl, rfl, rfl⟩
  · have hpe : jsonParseE region = Except.error "SyntaxError" := by
      unfold jsonParseE
      rw [hparse]
    rw [searchWebAttempt, loadUrlAttempt, readPageAttempt, hreg]
    dsimp only
    rw [hpe]
    exact ⟨rfl, rfl, rfl⟩

/-- C8 (witness): the amended theorem at a result text with no brace region
at all. -/
theorem json_tools_region_and_fallback_witness :
    (jsonRegionMatch "plain text" = none ∨
      ∃ region, jsonRegionMatch "plain text" = some region ∧ jsonParse region = none) ∧
      ((getToolDisplay "search_web" "plain text" qArgs =
          Except.ok ⟨"\"" ++ (qArgs.query.getD "") ++ "\"", "", false⟩ ∧
        getToolDisplay "load_url_content" "plain text" qArgs =
          Except.ok ⟨strTake (qArgs.url.getD "") 100, "", false⟩ ∧
        getToolDisplay "read_page" "plain text" qArgs =
          Except.ok ⟨"[" ++ (qArgs.page_id.getD "") ++ "]", "", false⟩) ∧
        (getToolDisplay "search_web" swOk qArgs =
          Except.ok ⟨"2条 \"q\"", "[1] Alpha\n[2] Beta", true⟩ ∧
        getToolDisplay "load_url_content" luOk luArgs =
          Except.ok ⟨"[u7] Page T", "[p1] s1", true⟩ ∧
        getToolDisplay "read_page" rpOk rpArgs =
          Except.ok ⟨"[p1] 第2/5页 (123字节)", "", false⟩)) :=
  ⟨Or.inl (by decide),
    json_tools_region_and_fallback "plain text" qArgs (Or.inl (by decide))⟩

/-- C10 (witness): the theorem at `off = 3`, `limOpt = some 9`. -/
theorem read_file_zero_is_absent_witness :
    ((0 : Int) < 3) ∧
      ((getToolDisplay "read_file" "l1"
          { emptyArgs with file_path := some "a/b.txt", offset := some 0, limit := some 9 } =
        Except.ok ⟨basename "a/b.txt" ++ " (all " ++
          toString (jsSplit "l1" "\n").length ++ "行)", "", false⟩) ∧
      (getToolDisplay "read_file" "l1"
          { emptyArgs with file_path := some "a/b.txt", offset := some 3, limit := some 0 } =
        Except.ok ⟨basename "a/b.txt" ++ " (" ++ toString (3 : Int) ++ "-end/" ++
          toString (jsSplit "l1" "\n").length ++ "行)", "", false⟩)) :=
  ⟨by decide, read_file_zero_is_absent "l1" "a/b.txt" (some 9) 3 (by decide)⟩

/-! ## C6 — delta coalescing -/

theorem strAppend_empty (s : String) : s ++ "" = s := by
  apply String.ext
  simp

/-- Folding `appendStream` over the deltas of one segment accumulates their
concatenation in the buffer. -/
theorem foldl_appendStream (sid : Option String) (b : String) (deltas : List String) :
    deltas.foldl appendStream ⟨sid, b, true⟩ =
      ⟨sid, b ++ concatAll deltas, true⟩ := by
  induction deltas generalizing b with
  | nil => simp [concatAll, strAppend_empty]
  | cons d ds ih => simp [appendStream, concatAll, ih, strAppend_assoc]

/-- `""` is a left identity for string append. -/
theorem strEmpty_append (s : String) : "" ++ s = s := by
  apply String.ext
  simp

/-- `onStreamStart` on a state with an open turn: it sets the message id iff
it was still unset, touching nothing else. -/
theorem onStreamStart_open (id : String) (ms : List Message) (ts : List Turn)
    (t : Turn) (ni : Nat) :
    onStreamStart id ⟨ms, ts, some t, true, ni⟩ =
      ⟨ms, ts, some (if strTruthy t.msgId then t else { t with msgId := some id }),
        true, ni⟩ := by
  unfold onStreamStart
  by_cases hm : strTruthy t.msgId
  all_goals simp [hm]

/-- C6 (counterexample): a stream segment whose single delta is the empty
string ends with *zero* new text parts — not the claimed "exactly one
TextPart" with the (empty) concatenated text — because `onStreamEnd` drops an
empty buffer. -/
theorem stream_empty_delta_cex :
    ((streamSegment "s1" [""] openEmptyState).currentTurn.map Turn.parts) = some [] ∧
      some ([] : List TurnPart) ≠ some [TurnPart.text ""] := by
  decide

/-- C6 (amended): for one streamed segment (one `chunkId`), delivering
`n ≥ 1` deltas followed by the stream end appends exactly one `TextPart` to
the open assistant turn, carrying the concatenation of the delta texts in
arrival order, provided that concatenation is non-empty (an all-empty
segment appends nothing); never one part per delta. -/
theorem stream_deltas_coalesce (c : ChatState) (t : Turn) (id : String)
    (deltas : List String) (hc : c.currentTurn = some t)
    (hin : c.isInAssistantTurn = true) (hne : concatAll deltas ≠ "") :
    ((streamSegment id deltas c).currentTurn.map Turn.parts) =
      some (t.parts ++ [TurnPart.text (concatAll deltas)]) := by
  obtain ⟨ms, ts, ct, ia, ni⟩ := c
  dsimp only at hc hin
  subst hc hin
  unfold streamSegment startStream endStream
  dsimp only
  rw [foldl_appendStream, onStreamStart_open]
  dsimp only
  rw [strEmpty_append]
  unfold onStreamEnd
  by_cases hm : strTruthy t.msgId
  all_goals simp [hm, hne]

/-- C6 (witness): the amended theorem on an open turn with one existing part
and the segment deltas `["he", "llo"]`. -/
theorem stream_deltas_coalesce_witness :
    ((⟨[], [], some ⟨Role.assistant, none, "", [TurnPart.tool "t1" (some "x")]⟩, true, 0⟩ :
        ChatState).currentTurn = some ⟨Role.assistant, none, "", [TurnPart.tool "t1" (some "x")]⟩) ∧
      concatAll ["he", "llo"] ≠ "" ∧
      ((streamSegment "s1" ["he", "llo"]
          ⟨[], [], some ⟨Role.assistant, none, "", [TurnPart.tool "t1" (some "x")]⟩, true, 0⟩).currentTurn.map
            Turn.parts) =
        some ([TurnPart.tool "t1" (some "x")] ++ [TurnPart.text (concatAll ["he", "llo"])]) :=
  ⟨rfl, by decide,
    stream_deltas_coalesce
      ⟨[], [], some ⟨Role.assistant, none, "", [TurnPart.tool "t1" (some "x")]⟩, true, 0⟩
      ⟨Role.assistant, none, "", [TurnPart.tool "t1" (some "x")]⟩ "s1" ["he", "llo"]
      rfl rfl (by decide)⟩

/-! ## C2 — result buffering and post-walk correlation -/

theorem applyToolCalls_acc (tcs : List ToolCall) (st : ReconState) :
    (applyToolCalls tcs st).toolArgsMap =
        (tcs.map (fun tc => (tc.id, resolveTcArgs tc))).reverse ++ st.toolArgsMap ∧
      (applyToolCalls tcs st).toolResults = st.toolResults := by
  induction tcs generalizing st with
  | nil => exact ⟨rfl, rfl⟩
  | cons tc tcs ih =>
      have h := ih { st with
        toolArgsMap := argsMapSet st.toolArgsMap tc.id (resolveTcArgs tc)
        curParts := st.curParts ++
          [TurnPart.tool tc.id (tc.function.bind (fun f => f.name))] }
      refine ⟨?_, ?_⟩
      · rw [applyToolCalls, List.foldl_cons]
        rw [show (List.foldl _ _ tcs : ReconState) = applyToolCalls tcs _ from rfl]
        rw [h.1]
        simp [argsMapSet]
      · rw [applyToolCalls, List.foldl_cons]
        rw [show (List.foldl _ _ tcs : ReconState) = applyToolCalls tcs _ from rfl]
        rw [h.2]

theorem reconChunk_buffers (st : ReconState) (chunk : SessionChunk) :
    (reconChunk st chunk).toolArgsMap =
        (chunkArgSets chunk).reverse ++ st.toolArgsMap ∧
      (reconChunk st chunk).toolResults = st.toolResults ++ resultRecOf chunk := by
  rcases chunk with ⟨ty, content, md⟩
  cases ty with
  | user =>
      unfold reconChunk resultRecOf chunkArgSets
      by_cases h : st.curParts.length > 0
      all_goals simp [h, freshRid]
  | assistant =>
      unfold reconChunk resultRecOf chunkArgSets
      dsimp only
      rcases htc : md.bind (fun m => m.tool_calls) with _ | tcs
      · by_cases h : st.curElExists
        all_goals by_cases h2 : content.getD "" ≠ ""
        all_goals simp [h, h2, htc, freshRid]
      · have hb := applyToolCalls_acc tcs
        by_cases h : st.curElExists
        all_goals by_cases h2 : content.getD "" ≠ ""
        all_goals simp only [h, h2, htc, if_true, if_false, if_pos, if_neg,
          Bool.false_eq_true, not_false_eq_true, ite_true, ite_false]
        all_goals refine ⟨by rw [(hb _).1]; try simp [h2, freshRid],
          by rw [(hb _).2]; try simp [h2, freshRid]⟩
  | tool_result =>
      unfold reconChunk resultRecOf chunkArgSets
      simp

theorem reconChunks_buffers (chunks : List SessionChunk) (st : ReconState) :
    (reconChunks chunks st).toolArgsMap =
        (flatMapC chunkArgSets chunks).reverse ++ st.toolArgsMap ∧
      (reconChunks chunks st).toolResults =
        st.toolResults ++ flatMapC resultRecOf chunks := by
  induction chunks generalizing st with
  | nil => simp [reconChunks, flatMapC]
  | cons c cs ih =>
      have h1 := reconChunk_buffers st c
      have h2 := ih (reconChunk st c)
      refine ⟨?_, ?_⟩
      · rw [reconChunks, h2.1, h1.1, flatMapC]
        simp
      · rw [reconChunks, h2.2, h1.2, flatMapC]
        simp

/-- C2: during reconstruction every `tool_result` record is buffered in log
order and applied only after the entire log has been walked, each one
resolved against the argument map built from *all* `tool_calls` of the log
(so a result later in the log than its start still resolves); and the example
log reconstructs to exactly one user turn followed by one assistant turn with
parts `[ToolPart(t1, x), TextPart("done")]`, the `t1` resolution carrying the
resolved display. -/
theorem tool_results_buffered_and_applied_after_walk :
    (∀ chunks : List SessionChunk,
      (loadSessionChunks chunks).2 =
        (flatMapC resultRecOf chunks).map (fun r =>
          (r.toolCallId,
            getToolDisplayRun r.toolName r.content
              (argsMapGet (argsMapOf chunks) (r.toolCallId.getD ""))))) ∧
      (loadSessionChunks exampleLog).1.turns.map stripTurn =
        [⟨Role.user, none, "hi", []⟩,
          ⟨Role.assistant, none, "done",
            [TurnPart.tool "t1" (some "x"), TurnPart.text "done"]⟩] ∧
      (loadSessionChunks exampleLog).2 =
        [(some "t1", ⟨"ok", "", false⟩)] := by
  refine ⟨?_, by decide, by decide⟩
  intro chunks
  have h := reconChunks_buffers chunks initRecon
  unfold loadSessionChunks
  dsimp only
  simp only [h.1, h.2]
  simp [initRecon, argsMapOf]

/-! ## C1 — live assembly versus reconstruction -/

theorem onStreamEnd_open (x : String) (ms : List Message) (ts : List Turn)
    (t : Turn) (ni : Nat) :
    onStreamEnd x ⟨ms, ts, some t, true, ni⟩ =
      ⟨ms, ts, some (midApply t (MidEvent.streamEnd x)), true, ni⟩ := by
  unfold onStreamEnd midApply
  by_cases hx : x = ""
  all_goals simp [hx]

theorem addTool_open (i n : String) (ms : List Message) (ts : List Turn)
    (t : Turn) (ni : Nat) :
    addTool i n ⟨ms, ts, some t, true, ni⟩ =
      ⟨ms, ts, some (midApply t (MidEvent.toolStart i n)), true, ni⟩ := by
  unfold addTool midApply
  simp

theorem onStreamStart_open_mid (m : String) (ms : List Message) (ts : List Turn)
    (t : Turn) (ni : Nat) :
    onStreamStart m ⟨ms, ts, some t, true, ni⟩ =
      ⟨ms, ts, some (midApply t (MidEvent.streamStart m)), true, ni⟩ := by
  rw [onStreamStart_open]
  rfl

/-- Running the mid-turn events of an open assistant turn only folds
`midApply` over the open turn. -/
theorem runLive_mids (mids : List MidEvent) (ms : List Message) (ts : List Turn)
    (t : Turn) (ni : Nat) :
    runLive (mids.map midToLive) ⟨ms, ts, some t, true, ni⟩ =
      ⟨ms, ts, some (mids.foldl midApply t), true, ni⟩ := by
  induction mids generalizing t with
  | nil => rfl
  | cons m rest ih =>
      cases m with
      | streamStart mid =>
          simp only [List.map_cons, runLive, stepLive, midToLive]
          rw [onStreamStart_open_mid, ih]
          rfl
      | streamEnd x =>
          simp only [List.map_cons, runLive, stepLive, midToLive]
          rw [onStreamEnd_open, ih]
          rfl
      | toolStart i n =>
          simp only [List.map_cons, runLive, stepLive, midToLive]
          rw [addTool_open, ih]
          rfl

/-- Closed form of the assistant turn a round's mid events accumulate. -/
theorem midsApply_parts (mids : List MidEvent) (t : Turn) :
    (mids.foldl midApply t).parts = t.parts ++ midParts mids ∧
      (mids.foldl midApply t).text =
        (if t.text = "" then firstTextD (midParts mids) else t.text) ∧
      (mids.foldl midApply t).role = t.role := by
  induction mids generalizing t with
  | nil =>
      refine ⟨by simp [midParts], ?_, rfl⟩
      by_cases ht : t.text = ""
      all_goals simp [midParts, firstTextD, ht]
  | cons m rest ih =>
      cases m with
      | streamStart mid =>
          have h := ih (midApply t (MidEvent.streamStart mid))
          by_cases hm : strTruthy t.msgId
          all_goals simp only [midApply, hm, if_true, if_false, ite_true,
            ite_false, List.foldl_cons] at h ⊢
          all_goals exact ⟨h.1, h.2.1, h.2.2⟩
      | streamEnd x =>
          have h := ih (midApply t (MidEvent.streamEnd x))
          by_cases hx : x = ""
          · simp only [midApply, hx, ne_eq, not_true_eq_false, if_false,
              ite_false, List.foldl_cons] at h ⊢
            simp only [midParts, ne_eq, hx, not_true_eq_false, if_false, ite_false]
            exact ⟨h.1, h.2.1, h.2.2⟩
          · simp only [midApply, hx, ne_eq, not_false_eq_true, if_true,
              ite_true, List.foldl_cons] at h ⊢
            simp only [midParts, ne_eq, hx, not_false_eq_true, if_true, ite_true]
            refine ⟨?_, ?_, ?_⟩
            · rw [h.1]
              simp
            · rw [h.2.1]
              by_cases ht : t.text = ""
              · simp [ht, hx, firstTextD]
              · simp [ht, hx]
            · exact h.2.2
      | toolStart i n =>
          have h := ih (midApply t (MidEvent.toolStart i n))
          simp only [midApply, List.foldl_cons] at h ⊢
          simp only [midParts]
          refine ⟨?_, ?_, ?_⟩
          · rw [h.1]
            simp
          · rw [h.2.1]
            simp [firstTextD]
          · exact h.2.2

theorem firstTextD_ne_empty {ps : List TurnPart} (h : firstTextD ps ≠ "") :
    ps ≠ [] := by
  intro he
  subst he
  exact h rfl

theorem endAssistantTurn_open_fields (ms : List Message) (ts : List Turn)
    (t : Turn) (ni : Nat) :
    (endAssistantTurn ⟨ms, ts, some t, true, ni⟩).turns =
        ts ++ (if t.parts.length > 0 ∨ t.text ≠ "" then [t] else []) ∧
      (endAssistantTurn ⟨ms, ts, some t, true, ni⟩).currentTurn = none ∧
      (endAssistantTurn ⟨ms, ts, some t, true, ni⟩).isInAssistantTurn = false := by
  unfold endAssistantTurn
  by_cases h : t.parts.length > 0 ∨ t.text ≠ ""
  all_goals simp [h]

/-- Closing an open assistant turn from an explicit open state. -/
theorem endAssistantTurn_open_exists (ms : List Message) (ts : List Turn)
    (t : Turn) (ni : Nat) :
    ∃ ms2 ni2, endAssistantTurn ⟨ms, ts, some t, true, ni⟩ =
      ⟨ms2, ts ++ (if t.parts.length > 0 ∨ t.text ≠ "" then [t] else []),
        none, false, ni2⟩ := by
  obtain ⟨h1, h2, h3⟩ := endAssistantTurn_open_fields ms ts t ni
  rcases he : endAssistantTurn ⟨ms, ts, some t, true, ni⟩ with ⟨a, b, c, d, e⟩
  rw [he] at h1 h2 h3
  dsimp only at h1 h2 h3
  subst h1 h2 h3
  exact ⟨a, e, rfl⟩

/-- One live round from an idle state: the user turn is appended, then the
assistant turn exactly when it accumulated content. -/
theorem runLive_round (r : Round) (ms : List Message) (ts : List Turn) (ni : Nat) :
    ∃ ms2 ni2,
      runLive (roundEvents r) ⟨ms, ts, none, false, ni⟩ =
        ⟨ms2,
          ts ++ [⟨Role.user, some ("msg-" ++ toString ni), r.userText, []⟩] ++
            (let f := r.mids.foldl midApply ⟨Role.assistant, none, "", []⟩
             if f.parts.length > 0 ∨ f.text ≠ "" then [f] else []),
          none, false, ni2⟩ := by
  have h1 : runLive (roundEvents r) (⟨ms, ts, none, false, ni⟩ : ChatState) =
      runLive (r.mids.map midToLive ++ [LiveEvent.turnEnd])
        ⟨ms ++ [⟨"msg-" ++ toString ni, Role.user, r.userText⟩],
          ts ++ [⟨Role.user, some ("msg-" ++ toString ni), r.userText, []⟩],
          some ⟨Role.assistant, none, "", []⟩, true, ni + 1⟩ := rfl
  rw [h1, runLive_append, runLive_mids]
  have h2 : ∀ S : ChatState, runLive [LiveEvent.turnEnd] S = endAssistantTurn S :=
    fun S => rfl
  rw [h2]
  obtain ⟨ms2, ni2, he⟩ := endAssistantTurn_open_exists
    (ms ++ [⟨"msg-" ++ toString ni, Role.user, r.userText⟩])
    (ts ++ [⟨Role.user, some ("msg-" ++ toString ni), r.userText, []⟩])
    (r.mids.foldl midApply ⟨Role.assistant, none, "", []⟩) (ni + 1)
  rw [he]
  exact ⟨ms2, ni2, by simp⟩

/-- Stripping ids from the optional live assistant turn yields the canonical
optional turn of the round. -/
theorem liveOptTurn_strip (r : Round) :
    ((let f := r.mids.foldl midApply ⟨Role.assistant, none, "", []⟩
      if f.parts.length > 0 ∨ f.text ≠ "" then [f] else []).map stripTurn) =
      (if midParts r.mids = [] then []
       else [⟨Role.assistant, none, firstTextD (midParts r.mids), midParts r.mids⟩]) := by
  have h := midsApply_parts r.mids ⟨Role.assistant, none, "", []⟩
  rcases hf : r.mids.foldl midApply ⟨Role.assistant, none, "", []⟩ with ⟨ro, mi, tx, pa⟩
  rw [hf] at h
  rcases h with ⟨hp, ht, hr⟩
  simp only [] at hp ht hr
  subst hr
  simp only [List.nil_append, ite_true, if_true] at hp ht
  subst hp ht
  by_cases hm : midParts r.mids = []
  · simp [hm, firstTextD]
  · have hlen : (midParts r.mids).length > 0 := List.length_pos.mpr hm
    simp [hm, hlen, stripTurn]

/-- Live closed form: from an idle state, a round-structured event sequence
appends exactly the canonical turns. -/
theorem runLive_rounds (rounds : List Round) (ms : List Message) (ts : List Turn)
    (ni : Nat) :
    (runLive (eventsOfRounds rounds) ⟨ms, ts, none, false, ni⟩).turns.map stripTurn =
      ts.map stripTurn ++ canonTurns rounds := by
  induction rounds generalizing ms ts ni with
  | nil => simp [eventsOfRounds, flatMapC, runLive, canonTurns]
  | cons r rest ih =>
      have he : eventsOfRounds (r :: rest) = roundEvents r ++ eventsOfRounds rest := rfl
      rw [he, runLive_append]
      obtain ⟨ms2, ni2, hr⟩ := runLive_round r ms ts ni
      rw [hr, ih]
      have hc : canonTurns (r :: rest) = canonRound r ++ canonTurns rest := rfl
      rw [hc]
      simp only [List.map_append, List.append_assoc]
      congr 1
      rw [← List.append_assoc]
      congr 1
      have hl := liveOptTurn_strip r
      simp only [] at hl
      rw [hl]
      rfl

theorem reconChunks_append (a b : List SessionChunk) (st : ReconState) :
    reconChunks (a ++ b) st = reconChunks b (reconChunks a st) := by
  induction a generalizing st with
  | nil => rfl
  | cons c cs ih => simp [reconChunks, ih]

/-- A plain `assistant` text record (what a stream segment persists). -/
theorem reconChunk_assistant_text (st : ReconState) (x : String) :
    (reconChunk st ⟨ChunkType.assistant, some x, none⟩).turns = st.turns ∧
      (reconChunk st ⟨ChunkType.assistant, some x, none⟩).curParts =
        st.curParts ++ (if x ≠ "" then [TurnPart.text x] else []) := by
  unfold reconChunk
  by_cases h : st.curElExists
  all_goals by_cases hx : x ≠ ""
  all_goals simp [h, hx, freshRid]

/-- An `assistant` record carrying one tool call (what a tool start
persists). -/
theorem reconChunk_assistant_tool (st : ReconState) (i n : String) :
    (reconChunk st ⟨ChunkType.assistant, some "",
        some ⟨some [⟨i, some ⟨some n, none⟩⟩], none, none⟩⟩).turns = st.turns ∧
      (reconChunk st ⟨ChunkType.assistant, some "",
          some ⟨some [⟨i, some ⟨some n, none⟩⟩], none, none⟩⟩).curParts =
        st.curParts ++ [TurnPart.tool i (some n)] := by
  unfold reconChunk applyToolCalls
  by_cases h : st.curElExists
  all_goals simp [h, freshRid]

/-- Walking the records of one turn's mid events only extends the pending
part accumulation, in order. -/
theorem reconChunks_mids (mids : List MidEvent) (st : ReconState) :
    (reconChunks (midChunks mids) st).turns = st.turns ∧
      (reconChunks (midChunks mids) st).curParts = st.curParts ++ midParts mids := by
  induction mids generalizing st with
  | nil => simp [midChunks, flatMapC, reconChunks, midParts]
  | cons m rest ih =>
      have hstep : midChunks (m :: rest) =
          eventToChunks (midToLive m) ++ midChunks rest := rfl
      rw [hstep, reconChunks_append]
      cases m with
      | streamStart mid =>
          rw [show reconChunks (eventToChunks (midToLive (MidEvent.streamStart mid))) st =
            st from rfl]
          have h := ih st
          exact ⟨h.1, by rw [h.2]; rfl⟩
      | streamEnd x =>
          rw [show reconChunks (eventToChunks (midToLive (MidEvent.streamEnd x))) st =
            reconChunk st ⟨ChunkType.assistant, some x, none⟩ from rfl]
          have hc := reconChunk_assistant_text st x
          have h := ih (reconChunk st ⟨ChunkType.assistant, some x, none⟩)
          refine ⟨by rw [h.1, hc.1], ?_⟩
          rw [h.2, hc.2]
          by_cases hx : x ≠ ""
          all_goals simp [midParts, hx]
      | toolStart i n =>
          rw [show reconChunks (eventToChunks (midToLive (MidEvent.toolStart i n))) st =
            reconChunk st ⟨ChunkType.assistant, some "",
              some ⟨some [⟨i, some ⟨some n, none⟩⟩], none, none⟩⟩ from rfl]
          have hc := reconChunk_assistant_tool st i n
          have h := ih (reconChunk st ⟨ChunkType.assistant, some "",
            some ⟨some [⟨i, some ⟨some n, none⟩⟩], none, none⟩⟩)
          refine ⟨by rw [h.1, hc.1], ?_⟩
          rw [h.2, hc.2]
          simp [midParts]

/-- A `user` record flushes the pending accumulation and appends the user
turn. -/
theorem reconChunk_user (st : ReconState) (u : String) :
    (reconChunk st ⟨ChunkType.user, some u, none⟩).turns =
        st.turns ++ flushOf st ++
          [⟨Role.user, some ("msg-" ++ toString st.nextId), u, []⟩] ∧
      (reconChunk st ⟨ChunkType.user, some u, none⟩).curParts = [] := by
  unfold reconChunk flushOf freshRid
  by_cases h : st.curParts = []
  · simp [h]
  · have hl : st.curParts.length > 0 := List.length_pos.mpr h
    simp [h, hl]

/-- One round of flat-log records: flush the previous round's pending turn,
append the user turn, and leave the round's own parts pending. -/
theorem reconChunks_round (r : Round) (st : ReconState) :
    (reconChunks (roundChunks r) st).turns =
        st.turns ++ flushOf st ++
          [⟨Role.user, some ("msg-" ++ toString st.nextId), r.userText, []⟩] ∧
      (reconChunks (roundChunks r) st).curParts = midParts r.mids := by
  have hc := reconChunk_user st r.userText
  have hm := reconChunks_mids r.mids (reconChunk st ⟨ChunkType.user, some r.userText, none⟩)
  have hstep : reconChunks (roundChunks r) st =
      reconChunks (midChunks r.mids)
        (reconChunk st ⟨ChunkType.user, some r.userText, none⟩) := rfl
  rw [hstep]
  exact ⟨by rw [hm.1, hc.1], by rw [hm.2, hc.2]; simp⟩

/-- Reconstruction closed form: the walked turns plus the pending flush equal
the canonical turns, up to message ids. -/
theorem reconChunks_rounds (rounds : List Round) (st : ReconState) :
    ((reconChunks (flatMapC roundChunks rounds) st).turns ++
        flushOf (reconChunks (flatMapC roundChunks rounds) st)).map stripTurn =
      ((st.turns ++ flushOf st).map stripTurn) ++ canonTurns rounds := by
  induction rounds generalizing st with
  | nil => simp [flatMapC, reconChunks, canonTurns]
  | cons r rest ih =>
      have hstep : flatMapC roundChunks (r :: rest) =
          roundChunks r ++ flatMapC roundChunks rest := rfl
      rw [hstep, reconChunks_append, ih]
      have h2 := reconChunks_round r st
      have hf : (flushOf (reconChunks (roundChunks r) st)).map stripTurn =
          (if midParts r.mids = [] then []
           else [⟨Role.assistant, none, firstTextD (midParts r.mids), midParts r.mids⟩]) := by
        unfold flushOf
        rw [h2.2]
        by_cases hm : midParts r.mids = []
        all_goals simp [hm, stripTurn]
      rw [List.map_append, hf, h2.1]
      have hc : canonTurns (r :: rest) = canonRound r ++ canonTurns rest := rfl
      rw [hc]
      simp [canonRound, stripTurn, List.append_assoc]

theorem chunksOfRounds_eq (rounds : List Round) :
    eventsToChunks (eventsOfRounds rounds) = flatMapC roundChunks rounds := by
  induction rounds with
  | nil => rfl
  | cons r rest ih =>
      have h1 : eventsToChunks (eventsOfRounds (r :: rest)) =
          flatMapC eventToChunks (roundEvents r) ++
            eventsToChunks (eventsOfRounds rest) := by
        unfold eventsToChunks eventsOfRounds
        rw [show flatMapC roundEvents (r :: rest) =
          roundEvents r ++ flatMapC roundEvents rest from rfl]
        rw [flatMapC_append]
      have h2 : flatMapC eventToChunks (roundEvents r) = roundChunks r := by
        unfold roundEvents roundChunks midChunks
        rw [show flatMapC eventToChunks
            (LiveEvent.user r.userText :: (r.mids.map midToLive ++ [LiveEvent.turnEnd])) =
          eventToChunks (LiveEvent.user r.userText) ++
            flatMapC eventToChunks (r.mids.map midToLive ++ [LiveEvent.turnEnd]) from rfl]
        rw [flatMapC_append]
        all_goals simp [eventToChunks, flatMapC]
      rw [h1, h2, ih]
      rfl

/-- C1 (amended): for every *round-structured* live event sequence — each
user submission arrives with no assistant turn open, and each assistant turn
is closed by a turn end — running the equivalent flat log through
`loadSessionChunks` yields a turn list structurally equal (same roles, same
part sequence, same tool ids — message ids ignored) to the live turn list.
(The restriction is forced by the counterexample: a user submission with an
assistant turn still open drops that turn's contents live but flushes them as
a turn on reload.) -/
theorem live_reload_roundtrip (rounds : List Round) :
    (loadSessionChunks (eventsToChunks (eventsOfRounds rounds))).1.turns.map stripTurn =
      (runLive (eventsOfRounds rounds) initState).turns.map stripTurn := by
  have hinit : initState = (⟨[], [], none, false, 0⟩ : ChatState) := rfl
  rw [hinit, runLive_rounds]
  rw [chunksOfRounds_eq]
  have hL : (loadSessionChunks (flatMapC roundChunks rounds)).1.turns =
      (reconChunks (flatMapC roundChunks rounds) initRecon).turns ++
        flushOf (reconChunks (flatMapC roundChunks rounds) initRecon) := by
    unfold loadSessionChunks finalizeRecon flushOf
    dsimp only
    by_cases h : (reconChunks (flatMapC roundChunks rounds) initRecon).curParts = []
    · simp [h]
    · have hl := List.length_pos.mpr h
      simp [h, hl]
  rw [hL, reconChunks_rounds]
  simp [initRecon, flushOf]

/-- C1 (counterexample): for the event sequence `[user "u1", streamEnd "a",
user "u2", turnEnd]` the live path produces two user turns and *no* assistant
turn (the second submission drops the open turn's text part), while
reconstruction of the equivalent flat log flushes that text as an assistant
turn between the two user turns — the lists are not structurally equal. -/
theorem live_reload_roundtrip_cex :
    ¬ ((loadSessionChunks (eventsToChunks badEvents)).1.turns.map stripTurn =
      (runLive badEvents initState).turns.map stripTurn) := by
  decide

end Paw
